import Mathlib

/-!
Shallow embedding of the webhook registry store (`src/store.js`) of the
Webhook repository, together with proofs about its operations.

The `FileWebhookStore` keeps a registry `this.state.hooks`, a JavaScript
object mapping slugs to hook records.  We model that object as an
association list in insertion order (JS objects enumerate string keys in
insertion order, and all slugs here are non-numeric strings), and each
operation as a function from the store state to a pair of
(result-or-error, next state): the JS methods first validate and throw
before touching the state, so an error leaves the state as it was.

Timestamps are modelled as natural numbers (milliseconds since the epoch,
the value `new Date(t).getTime()` yields); the store never inspects a
timestamp other than by this numeric comparison in `listRecentEntries`.
-/

/-- Key-value search in an association list: the value stored at `k`, if
any.  Models JavaScript property lookup `o[k]` on a plain object. -/
def assocFind {κ : Type} {α : Type} [DecidableEq κ] : List (κ × α) → κ → Option α
  | [], _ => none
  | (k, v) :: rest, s => if k = s then some v else assocFind rest s

/-- Key-value update in an association list: overwrite the binding of `k`
in place when present, otherwise append a new binding (JS property
assignment `o[k] = v`, which keeps the key order of an existing key and
adds new keys at the end). -/
def assocSet {κ : Type} {α : Type} [DecidableEq κ] : List (κ × α) → κ → α → List (κ × α)
  | [], s, v => [(s, v)]
  | (k, w) :: rest, s, v => if k = s then (s, v) :: rest else (k, w) :: assocSet rest s v

/-- Key removal from an association list (JS `delete o[k]`). -/
def assocRemove {κ : Type} {α : Type} [DecidableEq κ] : List (κ × α) → κ → List (κ × α)
  | [], _ => []
  | (k, w) :: rest, s => if k = s then assocRemove rest s else (k, w) :: assocRemove rest s

/-- One delivery log entry, as built by the router and stored verbatim by
`recordHit` (fields per the data model: id, timestamp, body, bodyPreview,
isJson, formatted, byteSize). -/
structure LogEntry where
  eid : String
  timestamp : Nat
  body : String
  bodyPreview : String
  isJson : Bool
  formatted : Option String
  byteSize : Nat
deriving DecidableEq, Repr

/-- One hook record, as created by `createHook` (src/store.js lines 88-97). -/
structure Hook where
  hid : String
  slug : String
  description : String
  metadata : List (String × String)
  createdAt : Nat
  lastHit : Option Nat
  hits : Nat
  logs : List LogEntry
deriving DecidableEq, Repr

/-- Errors thrown by the store: a message and the optional `statusCode`
property the router dispatches on. -/
structure StoreErr where
  message : String
  statusCode : Option Nat
deriving DecidableEq, Repr

/-- In-memory state of a `FileWebhookStore`: the configured log limit and
the registry object `this.state.hooks`. -/
structure FileStore where
  logLimit : Nat
  hooks : List (String × Hook)
deriving DecidableEq, Repr

/-- Conflict error of `createHook` (src/store.js lines 83-85). -/
def conflictErr (slug : String) : StoreErr :=
  { message := "A webhook with slug \"" ++ slug ++ "\" already exists."
    statusCode := some 409 }

/-- Not-found error of `recordHit` and `clearLogs` (src/store.js lines
115-117 and 134-136). -/
def notFoundErr (slug : String) : StoreErr :=
  { message := "Unknown webhook slug \"" ++ slug ++ "\"."
    statusCode := some 404 }

/-- The method `getHook` (src/store.js lines 72-79).  The JS code returns
`JSON.parse(JSON.stringify(hook))`; every field of a hook record is
JSON-representable, so the round trip is value-preserving and in this pure
model the copy is the value itself.  (The aliasing aspect — copy versus
live reference — is modelled separately with an explicit heap below.) -/
def getHook (st : FileStore) (slug : String) : Option Hook :=
  assocFind st.hooks slug

/-- The method `createHook` (src/store.js lines 81-101).  The fresh random
id and the current time are passed in as parameters `newId` and `now`
(`generateId(10)` and `new Date().toISOString()` in the source).  Returns
the thrown error or the created record, together with the next state. -/
def createHook (st : FileStore) (slug description : String)
    (metadata : List (String × String)) (newId : String) (now : Nat) :
    Except StoreErr Hook × FileStore :=
  match assocFind st.hooks slug with
  | some _ => (Except.error (conflictErr slug), st)
  | none =>
    let hook : Hook :=
      { hid := newId, slug := slug, description := description
        metadata := metadata, createdAt := now, lastHit := none
        hits := 0, logs := [] }
    (Except.ok hook, { st with hooks := assocSet st.hooks slug hook })

/-- The method `deleteHook` (src/store.js lines 103-110): returns whether
the slug existed and the next state. -/
def deleteHook (st : FileStore) (slug : String) : Bool × FileStore :=
  match assocFind st.hooks slug with
  | none => (false, st)
  | some _ => (true, { st with hooks := assocRemove st.hooks slug })

/-- The method `recordHit` (src/store.js lines 112-129): bump `hits`, set
`lastHit`, prepend the entry, truncate to `logLimit` when over it. -/
def recordHit (st : FileStore) (slug : String) (e : LogEntry) :
    Except StoreErr LogEntry × FileStore :=
  match assocFind st.hooks slug with
  | none => (Except.error (notFoundErr slug), st)
  | some hook =>
    let logs1 := e :: hook.logs
    let logs2 := if logs1.length > st.logLimit then logs1.take st.logLimit else logs1
    let hook' := { hook with hits := hook.hits + 1, lastHit := some e.timestamp, logs := logs2 }
    (Except.ok e, { st with hooks := assocSet st.hooks slug hook' })

/-- The method `clearLogs` (src/store.js lines 131-144): empty the logs,
zero the counter, null the last-hit stamp; returns the updated record. -/
def clearLogs (st : FileStore) (slug : String) : Except StoreErr Hook × FileStore :=
  match assocFind st.hooks slug with
  | none => (Except.error (notFoundErr slug), st)
  | some hook =>
    let hook' := { hook with logs := [], hits := 0, lastHit := none }
    (Except.ok hook', { st with hooks := assocSet st.hooks slug hook' })

/-- Iterated successful deliveries: fold `recordHit` over a list of
entries, keeping only the state (the calls all succeed when the slug is
registered, which the lemmas below establish). -/
def recordHits (st : FileStore) (slug : String) (es : List LogEntry) : FileStore :=
  es.foldl (fun s e => (recordHit s slug e).2) st

/- Association-list lemmas. -/

theorem assocFind_assocSet_self {κ α : Type} [DecidableEq κ]
    (l : List (κ × α)) (k : κ) (v : α) : assocFind (assocSet l k v) k = some v := by
  induction l with
  | nil => simp [assocSet, assocFind]
  | cons p rest ih =>
    obtain ⟨k', w⟩ := p
    by_cases h : k' = k
    · subst h; simp [assocSet, assocFind]
    · simp [assocSet, assocFind, h, ih]

theorem assocFind_assocSet_ne {κ α : Type} [DecidableEq κ]
    (l : List (κ × α)) (k k' : κ) (v : α) (h : k ≠ k') :
    assocFind (assocSet l k v) k' = assocFind l k' := by
  induction l with
  | nil => simp [assocSet, assocFind, h]
  | cons p rest ih =>
    obtain ⟨k₀, w⟩ := p
    by_cases h0 : k₀ = k
    · subst h0; simp [assocSet, assocFind, h]
    · simp [assocSet, assocFind, h0, ih]

theorem assocFind_assocRemove_self {κ α : Type} [DecidableEq κ]
    (l : List (κ × α)) (k : κ) : assocFind (assocRemove l k) k = none := by
  induction l with
  | nil => simp [assocRemove, assocFind]
  | cons p rest ih =>
    obtain ⟨k₀, w⟩ := p
    by_cases h0 : k₀ = k
    · subst h0; simp [assocRemove, assocFind, ih]
    · simp [assocRemove, assocFind, h0, ih]

theorem assocFind_assocRemove_ne {κ α : Type} [DecidableEq κ]
    (l : List (κ × α)) (k k' : κ) (h : k ≠ k') :
    assocFind (assocRemove l k) k' = assocFind l k' := by
  induction l with
  | nil => simp [assocRemove, assocFind]
  | cons p rest ih =>
    obtain ⟨k₀, w⟩ := p
    by_cases h0 : k₀ = k
    · subst h0; simpa [assocRemove, assocFind, h] using ih
    · simp [assocRemove, assocFind, h0, ih]


/- Truncation lemmas: one `recordHit` step sets the logs to
`(e :: old).take logLimit`, whether or not the bound was exceeded. -/

theorem truncStep_eq_take (L : Nat) (l : List LogEntry) :
    (if l.length > L then l.take L else l) = l.take L := by
  split
  · rfl
  · exact (List.take_of_length_le (by omega)).symm

theorem take_append_take {α : Type} (n : Nat) (xs ys : List α) :
    (xs ++ ys.take n).take n = (xs ++ ys).take n := by
  rw [List.take_append_eq_append_take, List.take_append_eq_append_take, List.take_take]
  congr 2
  omega

/-- The hook record after one successful `recordHit` against it, with the
truncation step already rewritten into a plain `take`. -/
def bumpHook (L : Nat) (e : LogEntry) (hook : Hook) : Hook :=
  { hook with
    hits := hook.hits + 1
    lastHit := some e.timestamp
    logs := (e :: hook.logs).take L }

theorem recordHit_ok (st : FileStore) (slug : String) (e : LogEntry)
    (hook : Hook) (h : assocFind st.hooks slug = some hook) :
    recordHit st slug e =
      (Except.ok e, { st with hooks := assocSet st.hooks slug (bumpHook st.logLimit e hook) }) := by
  simp only [recordHit, h, bumpHook]
  rw [truncStep_eq_take]

/-- Characterization of a non-empty run of successful deliveries against a
registered slug: the slug stays registered, the identity fields are
untouched, the hit counter advances by the number of deliveries, the
last-hit stamp is the final entry's timestamp, and the logs are the
reversed run prepended to the old logs, truncated to the limit. -/
theorem recordHits_spec (slug : String) :
    ∀ (es : List LogEntry) (st : FileStore) (hook : Hook) (hne : es ≠ []),
      assocFind st.hooks slug = some hook →
      ∃ hook', assocFind (recordHits st slug es).hooks slug = some hook' ∧
        (recordHits st slug es).logLimit = st.logLimit ∧
        hook'.hid = hook.hid ∧ hook'.slug = hook.slug ∧
        hook'.description = hook.description ∧ hook'.metadata = hook.metadata ∧
        hook'.createdAt = hook.createdAt ∧
        hook'.hits = hook.hits + es.length ∧
        hook'.lastHit = some ((es.getLast hne).timestamp) ∧
        hook'.logs = (es.reverse ++ hook.logs).take st.logLimit := by
  intro es
  induction es with
  | nil => intro st hook hne _; exact absurd rfl hne
  | cons e es ih =>
    intro st hook hne hfind
    have hstep := recordHit_ok st slug e hook hfind
    have hrec : recordHits st slug (e :: es) =
        recordHits { st with hooks := assocSet st.hooks slug (bumpHook st.logLimit e hook) } slug es := by
      simp [recordHits, hstep]
    rcases Decidable.em (es = []) with hnil | hnonnil
    · subst hnil
      refine ⟨bumpHook st.logLimit e hook, ?_, ?_, rfl, rfl, rfl, rfl, rfl, rfl, rfl, ?_⟩
      · rw [hrec]
        exact assocFind_assocSet_self st.hooks slug _
      · rw [hrec]
        rfl
      · simp [bumpHook]
    · have hfind1 : assocFind (assocSet st.hooks slug (bumpHook st.logLimit e hook)) slug =
          some (bumpHook st.logLimit e hook) :=
        assocFind_assocSet_self st.hooks slug _
      obtain ⟨hook', h1, h2, h3, h4, h5, h6, h7, h8, h9, h10⟩ :=
        ih { st with hooks := assocSet st.hooks slug (bumpHook st.logLimit e hook) }
          (bumpHook st.logLimit e hook) hnonnil hfind1
      refine ⟨hook', ?_, ?_, h3, h4, h5, h6, h7, ?_, ?_, ?_⟩
      · rw [hrec]; exact h1
      · rw [hrec]; exact h2
      · rw [h8]
        show hook.hits + 1 + es.length = hook.hits + (e :: es).length
        rw [List.length_cons]
        omega
      · rw [h9, List.getLast_cons hnonnil]
      · rw [h10]
        show (es.reverse ++ (e :: hook.logs).take st.logLimit).take st.logLimit =
          ((e :: es).reverse ++ hook.logs).take st.logLimit
        rw [take_append_take, List.reverse_cons, List.append_assoc, List.singleton_append]

/- The configured log limit is never changed by any operation. -/

theorem recordHit_logLimit (st : FileStore) (slug : String) (e : LogEntry) :
    ((recordHit st slug e).2).logLimit = st.logLimit := by
  cases hfind : assocFind st.hooks slug <;> simp [recordHit, hfind]

theorem createHook_logLimit (st : FileStore) (slug description : String)
    (metadata : List (String × String)) (newId : String) (now : Nat) :
    ((createHook st slug description metadata newId now).2).logLimit = st.logLimit := by
  cases hfind : assocFind st.hooks slug <;> simp [createHook, hfind]

theorem clearLogs_logLimit (st : FileStore) (slug : String) :
    ((clearLogs st slug).2).logLimit = st.logLimit := by
  cases hfind : assocFind st.hooks slug <;> simp [clearLogs, hfind]

theorem deleteHook_logLimit (st : FileStore) (slug : String) :
    ((deleteHook st slug).2).logLimit = st.logLimit := by
  cases hfind : assocFind st.hooks slug <;> simp [deleteHook, hfind]

/-- All registered hooks respect the configured log bound. -/
def LogsBounded (st : FileStore) : Prop :=
  ∀ k hk, assocFind st.hooks k = some hk → hk.logs.length ≤ st.logLimit

theorem logsBounded_recordHit (st : FileStore) (slug : String) (e : LogEntry)
    (hb : LogsBounded st) : LogsBounded (recordHit st slug e).2 := by
  intro k hk hfk
  rw [recordHit_logLimit]
  cases hfind : assocFind st.hooks slug with
  | none =>
    simp only [recordHit, hfind] at hfk
    exact hb k hk hfk
  | some hook =>
    rw [recordHit_ok st slug e hook hfind] at hfk
    by_cases hks : slug = k
    · subst hks
      rw [assocFind_assocSet_self] at hfk
      cases hfk
      simp [bumpHook]
    · rw [assocFind_assocSet_ne _ _ _ _ hks] at hfk
      exact hb k hk hfk

theorem logsBounded_createHook (st : FileStore) (slug description : String)
    (metadata : List (String × String)) (newId : String) (now : Nat)
    (hb : LogsBounded st) : LogsBounded (createHook st slug description metadata newId now).2 := by
  intro k hk hfk
  rw [createHook_logLimit]
  cases hfind : assocFind st.hooks slug with
  | some hook =>
    simp only [createHook, hfind] at hfk
    exact hb k hk hfk
  | none =>
    simp only [createHook, hfind] at hfk
    by_cases hks : slug = k
    · subst hks
      rw [assocFind_assocSet_self] at hfk
      cases hfk
      simp
    · rw [assocFind_assocSet_ne _ _ _ _ hks] at hfk
      exact hb k hk hfk

theorem logsBounded_clearLogs (st : FileStore) (slug : String)
    (hb : LogsBounded st) : LogsBounded (clearLogs st slug).2 := by
  intro k hk hfk
  rw [clearLogs_logLimit]
  cases hfind : assocFind st.hooks slug with
  | none =>
    simp only [clearLogs, hfind] at hfk
    exact hb k hk hfk
  | some hook =>
    simp only [clearLogs, hfind] at hfk
    by_cases hks : slug = k
    · subst hks
      rw [assocFind_assocSet_self] at hfk
      cases hfk
      simp
    · rw [assocFind_assocSet_ne _ _ _ _ hks] at hfk
      exact hb k hk hfk

theorem logsBounded_deleteHook (st : FileStore) (slug : String)
    (hb : LogsBounded st) : LogsBounded (deleteHook st slug).2 := by
  intro k hk hfk
  rw [deleteHook_logLimit]
  cases hfind : assocFind st.hooks slug with
  | none =>
    simp only [deleteHook, hfind] at hfk
    exact hb k hk hfk
  | some hook =>
    simp only [deleteHook, hfind] at hfk
    by_cases hks : slug = k
    · subst hks
      rw [assocFind_assocRemove_self] at hfk
      cases hfk
    · rw [assocFind_assocRemove_ne _ _ _ hks] at hfk
      exact hb k hk hfk

/-- C1: for a registered slug with a fresh (zero-hit) record, a run of
`n > logLimit` successful `recordHit` calls leaves `getHook` reporting
exactly `logLimit` retained entries, namely the `logLimit` most recently
appended ones in newest-first order, while `hits` counts all `n`
deliveries; moreover every single mutation (`recordHit`, `createHook`,
`clearLogs`, `deleteHook`) preserves `logs.length <= logLimit` across the
whole registry. -/
theorem c1_log_eviction_and_bound :
    (∀ (st : FileStore) (slug : String) (hook : Hook) (es : List LogEntry),
      assocFind st.hooks slug = some hook → hook.hits = 0 →
      es.length > st.logLimit →
      ∃ hook', getHook (recordHits st slug es) slug = some hook' ∧
        hook'.logs.length = st.logLimit ∧
        hook'.logs = es.reverse.take st.logLimit ∧
        hook'.hits = es.length) ∧
    (∀ (st : FileStore) (slug : String) (e : LogEntry), LogsBounded st →
      LogsBounded (recordHit st slug e).2) ∧
    (∀ (st : FileStore) (slug description newId : String)
      (metadata : List (String × String)) (now : Nat), LogsBounded st →
      LogsBounded (createHook st slug description metadata newId now).2) ∧
    (∀ (st : FileStore) (slug : String), LogsBounded st →
      LogsBounded (clearLogs st slug).2) ∧
    (∀ (st : FileStore) (slug : String), LogsBounded st →
      LogsBounded (deleteHook st slug).2) := by
  refine ⟨?_, logsBounded_recordHit, ?_, logsBounded_clearLogs, logsBounded_deleteHook⟩
  · intro st slug hook es hfind hzero hlen
    have hne : es ≠ [] := by
      intro h
      subst h
      simp at hlen
    obtain ⟨hook', h1, _, _, _, _, _, _, h8, _, h10⟩ :=
      recordHits_spec slug es st hook hne hfind
    refine ⟨hook', h1, ?_, ?_, ?_⟩
    · rw [h10, List.take_append_of_le_length (by simpa using Nat.le_of_lt hlen),
        List.length_take, List.length_reverse]
      omega
    · rw [h10, List.take_append_of_le_length (by simpa using Nat.le_of_lt hlen)]
    · rw [h8, hzero, Nat.zero_add]
  · intro st slug description newId metadata now hb
    exact logsBounded_createHook st slug description metadata newId now hb

/-- Concrete registered hook used to instantiate C1. -/
def c1Hook : Hook :=
  { hid := "id0", slug := "a", description := "", metadata := []
    createdAt := 0, lastHit := none, hits := 0, logs := [] }

/-- Concrete two-entry-limit store used to instantiate C1. -/
def c1St : FileStore := { logLimit := 2, hooks := [("a", c1Hook)] }

/-- Three concrete deliveries, one more than the limit of `c1St`. -/
def c1Es : List LogEntry :=
  [ { eid := "e1", timestamp := 1, body := "b1", bodyPreview := "b1"
      isJson := false, formatted := none, byteSize := 2 }
  , { eid := "e2", timestamp := 2, body := "b2", bodyPreview := "b2"
      isJson := false, formatted := none, byteSize := 2 }
  , { eid := "e3", timestamp := 3, body := "b3", bodyPreview := "b3"
      isJson := false, formatted := none, byteSize := 2 } ]

/-- Witness for C1: three deliveries against a fresh hook in a store with
log limit two retain the two newest entries, newest first, with three
hits counted. -/
theorem c1_log_eviction_and_bound_witness :
    ∃ hook', getHook (recordHits c1St "a" c1Es) "a" = some hook' ∧
      hook'.logs.length = c1St.logLimit ∧
      hook'.logs = c1Es.reverse.take c1St.logLimit ∧
      hook'.hits = c1Es.length :=
  c1_log_eviction_and_bound.1 c1St "a" c1Hook c1Es (by decide) (by decide) (by decide)

/-- The record allocated by `createHook` (src/store.js lines 88-97): fresh
id, the given slug and annotations, zeroed counters, empty logs. -/
def freshHook (slug description : String) (metadata : List (String × String))
    (newId : String) (now : Nat) : Hook :=
  { hid := newId, slug := slug, description := description
    metadata := metadata, createdAt := now, lastHit := none
    hits := 0, logs := [] }

theorem createHook_ok (st : FileStore) (slug description : String)
    (metadata : List (String × String)) (newId : String) (now : Nat)
    (h : assocFind st.hooks slug = none) :
    createHook st slug description metadata newId now =
      (Except.ok (freshHook slug description metadata newId now),
        { st with hooks := assocSet st.hooks slug (freshHook slug description metadata newId now) }) := by
  simp [createHook, h, freshHook]

/-- C2: creating an unregistered slug succeeds, and reading the slug back
afterwards yields a record with zero hits, no last-hit stamp, empty logs,
the supplied fresh id and slug, and the creation timestamp. -/
theorem c2_create_then_get_fresh :
    ∀ (st : FileStore) (slug description newId : String)
      (metadata : List (String × String)) (now : Nat),
      assocFind st.hooks slug = none →
      (createHook st slug description metadata newId now).1 =
        Except.ok (freshHook slug description metadata newId now) ∧
      getHook (createHook st slug description metadata newId now).2 slug =
        some (freshHook slug description metadata newId now) ∧
      (freshHook slug description metadata newId now).hits = 0 ∧
      (freshHook slug description metadata newId now).lastHit = none ∧
      (freshHook slug description metadata newId now).logs = [] ∧
      (freshHook slug description metadata newId now).hid = newId ∧
      (freshHook slug description metadata newId now).slug = slug ∧
      (freshHook slug description metadata newId now).createdAt = now := by
  intro st slug description newId metadata now h
  rw [createHook_ok st slug description metadata newId now h]
  exact ⟨rfl, assocFind_assocSet_self st.hooks slug _, rfl, rfl, rfl, rfl, rfl, rfl⟩

/-- Witness for C2 on the empty store. -/
theorem c2_create_then_get_fresh_witness :
    (createHook { logLimit := 50, hooks := [] } "email1" "d" [("k", "v")] "idX" 7).1 =
      Except.ok (freshHook "email1" "d" [("k", "v")] "idX" 7) ∧
    getHook (createHook { logLimit := 50, hooks := [] } "email1" "d" [("k", "v")] "idX" 7).2 "email1" =
      some (freshHook "email1" "d" [("k", "v")] "idX" 7) ∧
    (freshHook "email1" "d" [("k", "v")] "idX" 7).hits = 0 ∧
    (freshHook "email1" "d" [("k", "v")] "idX" 7).lastHit = none ∧
    (freshHook "email1" "d" [("k", "v")] "idX" 7).logs = [] ∧
    (freshHook "email1" "d" [("k", "v")] "idX" 7).hid = "idX" ∧
    (freshHook "email1" "d" [("k", "v")] "idX" 7).slug = "email1" ∧
    (freshHook "email1" "d" [("k", "v")] "idX" 7).createdAt = 7 := by
  have h := c2_create_then_get_fresh { logLimit := 50, hooks := [] } "email1" "d" "idX"
    [("k", "v")] 7 (by decide)
  exact h

/-- C3: `createHook` on an existing slug fails with the 409-tagged
conflict error, `recordHit` and `clearLogs` on an unregistered slug fail
with the 404-tagged not-found error, and in all three error cases the
returned state is exactly the input state. -/
theorem c3_typed_errors_leave_state :
    (∀ (st : FileStore) (slug description newId : String)
      (metadata : List (String × String)) (now : Nat) (hook : Hook),
      assocFind st.hooks slug = some hook →
      createHook st slug description metadata newId now =
        (Except.error (conflictErr slug), st) ∧
      (conflictErr slug).statusCode = some 409) ∧
    (∀ (st : FileStore) (slug : String) (e : LogEntry),
      assocFind st.hooks slug = none →
      recordHit st slug e = (Except.error (notFoundErr slug), st) ∧
      (notFoundErr slug).statusCode = some 404) ∧
    (∀ (st : FileStore) (slug : String),
      assocFind st.hooks slug = none →
      clearLogs st slug = (Except.error (notFoundErr slug), st) ∧
      (notFoundErr slug).statusCode = some 404) := by
  refine ⟨?_, ?_, ?_⟩
  · intro st slug description newId metadata now hook h
    exact ⟨by simp [createHook, h], rfl⟩
  · intro st slug e h
    exact ⟨by simp [recordHit, h], rfl⟩
  · intro st slug h
    exact ⟨by simp [clearLogs, h], rfl⟩

/-- Witness for C3: a conflicting create against a one-hook store and a
hit and a clear against the empty store. -/
theorem c3_typed_errors_leave_state_witness :
    (createHook c1St "a" "" [] "idY" 9 = (Except.error (conflictErr "a"), c1St) ∧
      (conflictErr "a").statusCode = some 409) ∧
    (recordHit { logLimit := 50, hooks := [] } "ghost"
        { eid := "e", timestamp := 1, body := "", bodyPreview := ""
          isJson := false, formatted := none, byteSize := 0 } =
      (Except.error (notFoundErr "ghost"), { logLimit := 50, hooks := [] }) ∧
      (notFoundErr "ghost").statusCode = some 404) ∧
    (clearLogs { logLimit := 50, hooks := [] } "ghost" =
      (Except.error (notFoundErr "ghost"), { logLimit := 50, hooks := [] }) ∧
      (notFoundErr "ghost").statusCode = some 404) :=
  ⟨c3_typed_errors_leave_state.1 c1St "a" "" "idY" [] 9 c1Hook (by decide),
   c3_typed_errors_leave_state.2.1 { logLimit := 50, hooks := [] } "ghost" _ (by decide),
   c3_typed_errors_leave_state.2.2 { logLimit := 50, hooks := [] } "ghost" (by decide)⟩

/-- The record after a reset (src/store.js lines 139-141): logs emptied,
hit counter zeroed, last-hit stamp nulled, everything else kept. -/
def clearedHook (hook : Hook) : Hook :=
  { hook with logs := [], hits := 0, lastHit := none }

theorem clearLogs_ok (st : FileStore) (slug : String) (hook : Hook)
    (h : assocFind st.hooks slug = some hook) :
    clearLogs st slug =
      (Except.ok (clearedHook hook),
        { st with hooks := assocSet st.hooks slug (clearedHook hook) }) := by
  simp [clearLogs, h, clearedHook]

theorem assocSet_assocSet {κ α : Type} [DecidableEq κ]
    (l : List (κ × α)) (k : κ) (v w : α) :
    assocSet (assocSet l k v) k w = assocSet l k w := by
  induction l with
  | nil => simp [assocSet]
  | cons p rest ih =>
    obtain ⟨k₀, u⟩ := p
    by_cases h0 : k₀ = k
    · subst h0; simp [assocSet]
    · simp [assocSet, h0, ih]

/-- C4: resetting a registered slug is idempotent.  The first `clearLogs`
returns the record with zeroed counters and empty logs while keeping id,
slug, description, metadata and creation time; a second `clearLogs`
returns the same record again and does not change the state further. -/
theorem c4_clearLogs_idempotent :
    ∀ (st : FileStore) (slug : String) (hook : Hook),
      assocFind st.hooks slug = some hook →
      ∃ st₁, clearLogs st slug = (Except.ok (clearedHook hook), st₁) ∧
        clearLogs st₁ slug = (Except.ok (clearedHook hook), st₁) ∧
        (clearedHook hook).hits = 0 ∧
        (clearedHook hook).lastHit = none ∧
        (clearedHook hook).logs = [] ∧
        (clearedHook hook).hid = hook.hid ∧
        (clearedHook hook).slug = hook.slug ∧
        (clearedHook hook).description = hook.description ∧
        (clearedHook hook).metadata = hook.metadata ∧
        (clearedHook hook).createdAt = hook.createdAt := by
  intro st slug hook h
  refine ⟨_, clearLogs_ok st slug hook h, ?_, rfl, rfl, rfl, rfl, rfl, rfl, rfl, rfl⟩
  have hfind1 : assocFind (assocSet st.hooks slug (clearedHook hook)) slug =
      some (clearedHook hook) := assocFind_assocSet_self st.hooks slug _
  rw [clearLogs_ok { st with hooks := assocSet st.hooks slug (clearedHook hook) }
    slug (clearedHook hook) hfind1]
  have hcc : clearedHook (clearedHook hook) = clearedHook hook := rfl
  rw [hcc]
  simp [assocSet_assocSet]

/-- Concrete hook with prior traffic used to instantiate C4. -/
def c4Hook : Hook :=
  { hid := "id0", slug := "a", description := "d", metadata := [("k", "v")]
    createdAt := 3, lastHit := some 9, hits := 4
    logs := [{ eid := "e9", timestamp := 9, body := "x", bodyPreview := "x"
               isJson := false, formatted := none, byteSize := 1 }] }

/-- Concrete one-hook store used to instantiate C4. -/
def c4St : FileStore := { logLimit := 50, hooks := [("a", c4Hook)] }

/-- Witness for C4 on a store holding one hook with prior traffic. -/
theorem c4_clearLogs_idempotent_witness :
    ∃ st₁, clearLogs c4St "a" = (Except.ok (clearedHook c4Hook), st₁) ∧
      clearLogs st₁ "a" = (Except.ok (clearedHook c4Hook), st₁) ∧
      (clearedHook c4Hook).hits = 0 ∧
      (clearedHook c4Hook).lastHit = none ∧
      (clearedHook c4Hook).logs = [] := by
  obtain ⟨st₁, h1, h2, h3, h4, h5, _⟩ := c4_clearLogs_idempotent c4St "a" c4Hook (by decide)
  exact ⟨st₁, h1, h2, h3, h4, h5⟩

/-- C5: deleting an unregistered slug returns false and leaves the state
untouched; deleting a registered slug returns true, removes exactly that
record (reads of any other slug are unchanged), makes `getHook` return
null for it, and lets a subsequent `createHook` of the slug succeed as on
a never-registered slug. -/
theorem c5_deleteHook_remove_recreate :
    (∀ (st : FileStore) (slug : String),
      assocFind st.hooks slug = none → deleteHook st slug = (false, st)) ∧
    (∀ (st : FileStore) (slug : String) (hook : Hook),
      assocFind st.hooks slug = some hook →
      (deleteHook st slug).1 = true ∧
      getHook (deleteHook st slug).2 slug = none ∧
      (∀ k, slug ≠ k → getHook (deleteHook st slug).2 k = getHook st k) ∧
      (∀ (description newId : String) (metadata : List (String × String)) (now : Nat),
        (createHook (deleteHook st slug).2 slug description metadata newId now).1 =
          Except.ok (freshHook slug description metadata newId now))) := by
  constructor
  · intro st slug h
    simp [deleteHook, h]
  · intro st slug hook h
    have hdel : deleteHook st slug = (true, { st with hooks := assocRemove st.hooks slug }) := by
      simp [deleteHook, h]
    refine ⟨by rw [hdel], ?_, ?_, ?_⟩
    · rw [hdel]
      exact assocFind_assocRemove_self st.hooks slug
    · intro k hk
      rw [hdel]
      exact assocFind_assocRemove_ne st.hooks slug k hk
    · intro description newId metadata now
      have hnone : assocFind (deleteHook st slug).2.hooks slug = none := by
        rw [hdel]
        exact assocFind_assocRemove_self st.hooks slug
      rw [createHook_ok _ slug description metadata newId now hnone]

/-- Witness for C5: deleting a missing slug from the one-hook store, then
deleting the registered slug and recreating it. -/
theorem c5_deleteHook_remove_recreate_witness :
    deleteHook c1St "ghost" = (false, c1St) ∧
    (deleteHook c1St "a").1 = true ∧
    getHook (deleteHook c1St "a").2 "a" = none ∧
    (createHook (deleteHook c1St "a").2 "a" "d2" [] "idZ" 11).1 =
      Except.ok (freshHook "a" "d2" [] "idZ" 11) := by
  have h1 := c5_deleteHook_remove_recreate.1 c1St "ghost" (by decide)
  have h2 := c5_deleteHook_remove_recreate.2 c1St "a" c1Hook (by decide)
  exact ⟨h1, h2.1, h2.2.1, h2.2.2.2 "d2" "idZ" [] 11⟩

/-- One element of the cross-hook recent feed, as assembled by
`listRecentEntries` (src/store.js lines 52-61). -/
structure FeedEntry where
  slug : String
  timestamp : Nat
  body : String
  bodyPreview : String
  isJson : Bool
  formatted : Option String
  byteSize : Nat
  reference : String
deriving DecidableEq, Repr

/-- The `limit` argument as the router hands it over: absent (the JS
default parameter applies), a number, or a non-numeric value whose
`Number(...)` conversion is NaN. -/
inductive LimitArg where
  | absent
  | num (n : Int)
  | nan
deriving DecidableEq, Repr

/-- The subexpression `Number(limit) || 20` (src/store.js line 68): the
default parameter 20 when absent, and the falsy values 0 and NaN also
fall back to 20. -/
def numberOr20 : LimitArg → Int
  | LimitArg.absent => 20
  | LimitArg.num n => if n = 0 then 20 else n
  | LimitArg.nan => 20

/-- The effective limit `Math.max(1, Math.min(Number(limit) || 20, 100))`
(src/store.js line 68). -/
def effectiveLimit (l : LimitArg) : Int :=
  max 1 (min (numberOr20 l) 100)

/-- Flattening of every hook's log entries into feed entries
(src/store.js lines 49-63), in registry insertion order. -/
def allEntries (st : FileStore) : List FeedEntry :=
  st.hooks.flatMap (fun p =>
    p.2.logs.map (fun log =>
      { slug := p.2.slug, timestamp := log.timestamp, body := log.body
        bodyPreview := log.bodyPreview, isJson := log.isJson
        formatted := log.formatted, byteSize := log.byteSize
        reference := log.eid }))

/-- The sort comparator of src/store.js lines 65-67: `a` sorts no later
than `b` when `b`'s timestamp is at most `a`'s (descending; ties keep
the original order, as the JS sort is stable). -/
def feedLe (a b : FeedEntry) : Bool :=
  decide (b.timestamp ≤ a.timestamp)

/-- The method `listRecentEntries` (src/store.js lines 48-70): flatten,
sort by timestamp descending (stable), truncate to the effective limit. -/
def listRecentEntries (st : FileStore) (limit : LimitArg) : List FeedEntry :=
  ((allEntries st).mergeSort feedLe).take (effectiveLimit limit).toNat

theorem feedLe_trans : ∀ a b c, feedLe a b = true → feedLe b c = true → feedLe a c = true := by
  intro a b c hab hbc
  simp only [feedLe, decide_eq_true_eq] at hab hbc ⊢
  omega

theorem feedLe_total : ∀ a b, (feedLe a b || feedLe b a) = true := by
  intro a b
  simp only [feedLe, Bool.or_eq_true, decide_eq_true_eq]
  omega

/-- Amended C6: the result is a prefix of length `effectiveLimit` of a
timestamp-descending permutation of the flattened entries; the effective
limit always lies in [1,100] and defaults to 20 when the limit is absent,
but the falsy inputs 0 and NaN fall back to the default 20 instead of
being clamped to 1; numeric limits in [1,100] are used as given, larger
ones clamp to 100 and negative ones to 1. -/
theorem c6_recent_entries_limit_clamp :
    ∀ (st : FileStore) (lim : LimitArg),
      ∃ sorted, List.Perm sorted (allEntries st) ∧
        List.Pairwise (fun a b => feedLe a b = true) sorted ∧
        listRecentEntries st lim = sorted.take (effectiveLimit lim).toNat ∧
        1 ≤ effectiveLimit lim ∧ effectiveLimit lim ≤ 100 ∧
        effectiveLimit LimitArg.absent = 20 ∧
        effectiveLimit LimitArg.nan = 20 ∧
        effectiveLimit (LimitArg.num 0) = 20 ∧
        (∀ n : Int, 1 ≤ n → n ≤ 100 → effectiveLimit (LimitArg.num n) = n) ∧
        (∀ n : Int, 100 < n → effectiveLimit (LimitArg.num n) = 100) ∧
        (∀ n : Int, n < 0 → effectiveLimit (LimitArg.num n) = 1) := by
  intro st lim
  refine ⟨(allEntries st).mergeSort feedLe,
    List.mergeSort_perm (allEntries st) feedLe,
    List.sorted_mergeSort feedLe_trans feedLe_total (allEntries st),
    rfl, ?_, ?_, rfl, rfl, rfl, ?_, ?_, ?_⟩
  · cases lim with
    | absent => simp [effectiveLimit, numberOr20]
    | nan => simp [effectiveLimit, numberOr20]
    | num n =>
      by_cases h0 : n = 0
      · simp [effectiveLimit, numberOr20, h0]
      · simp only [effectiveLimit, numberOr20, if_neg h0]
        omega
  · cases lim with
    | absent => simp [effectiveLimit, numberOr20]
    | nan => simp [effectiveLimit, numberOr20]
    | num n =>
      by_cases h0 : n = 0
      · simp [effectiveLimit, numberOr20, h0]
      · simp only [effectiveLimit, numberOr20, if_neg h0]
        omega
  · intro n h1 h2
    have h0 : ¬ n = 0 := by omega
    simp only [effectiveLimit, numberOr20, if_neg h0]
    omega
  · intro n h1
    have h0 : ¬ n = 0 := by omega
    simp only [effectiveLimit, numberOr20, if_neg h0]
    omega
  · intro n h1
    have h0 : ¬ n = 0 := by omega
    simp only [effectiveLimit, numberOr20, if_neg h0]
    omega

/-- Concrete store for C6: one hook with two retained entries. -/
def c6St : FileStore :=
  { logLimit := 50
    hooks := [("a",
      { hid := "id0", slug := "a", description := "", metadata := []
        createdAt := 0, lastHit := some 2, hits := 2
        logs := [{ eid := "e2", timestamp := 2, body := "y", bodyPreview := "y"
                   isJson := false, formatted := none, byteSize := 1 },
                 { eid := "e1", timestamp := 1, body := "x", bodyPreview := "x"
                   isJson := false, formatted := none, byteSize := 1 }] })] }

/-- Clamping of a numeric limit to [1,100] as the claim words it
("an effective limit clamped to the range [1,100]"); stated from the
claim, to be compared against the code's `effectiveLimit`. -/
def specClampLimit (n : Int) : Int :=
  max 1 (min n 100)

/-- Counterexample to C6 as stated: with `limit = 0` the claim's clamping
demands an effective limit of 1 — one returned entry on a two-entry
registry — but the code's `Number(limit) || 20` turns 0 into the default
20 and returns both entries. -/
theorem c6_recent_entries_limit_clamp_counterexample :
    specClampLimit 0 = 1 ∧
    (allEntries c6St).length = 2 ∧
    (listRecentEntries c6St (LimitArg.num 0)).length = 2 ∧
    (listRecentEntries c6St (LimitArg.num 0)).length ≠
      min (specClampLimit 0).toNat (allEntries c6St).length := by
  have hlen : ((allEntries c6St).mergeSort feedLe).length = (allEntries c6St).length :=
    (List.mergeSort_perm (allEntries c6St) feedLe).length_eq
  have h2 : (listRecentEntries c6St (LimitArg.num 0)).length = 2 := by
    unfold listRecentEntries
    rw [List.length_take, hlen]
    decide
  refine ⟨rfl, rfl, h2, ?_⟩
  rw [h2]
  decide

/-- Witness for the amended C6 at a store with two entries and an
in-range limit. -/
theorem c6_recent_entries_limit_clamp_witness :
    ∃ sorted, List.Perm sorted (allEntries c6St) ∧
      List.Pairwise (fun a b => feedLe a b = true) sorted ∧
      listRecentEntries c6St (LimitArg.num 5) = sorted.take (effectiveLimit (LimitArg.num 5)).toNat ∧
      effectiveLimit (LimitArg.num 5) = 5 := by
  obtain ⟨sorted, hperm, hsorted, heq, _, _, _, _, _, hin, _, _⟩ :=
    c6_recent_entries_limit_clamp c6St (LimitArg.num 5)
  exact ⟨sorted, hperm, hsorted, heq, hin 5 (by decide) (by decide)⟩

/-- JSON values as far as `init`/`normalizeState` inspect them
(src/store.js lines 22-35 and 173-183).  Arrays are omitted: for the two
property accesses involved a parsed top-level array behaves exactly like
an object whose `hooks` field is initially absent, so they would add a
constructor with identical treatment.  Numbers are integers here; only
the falsiness of 0 matters to this code. -/
inductive JValue where
  | null
  | bool (b : Bool)
  | num (n : Int)
  | str (s : String)
  | obj (fields : List (String × JValue))

/-- JavaScript falsiness of a JSON value (`!rawState`). -/
def jsFalsy : JValue → Bool
  | JValue.null => true
  | JValue.bool b => !b
  | JValue.num n => n == 0
  | JValue.str s => s == ""
  | JValue.obj _ => false

/-- Whether `typeof v === 'object'` holds; note JS classifies `null` as
object-typed. -/
def jsTypeofObject : JValue → Bool
  | JValue.null => true
  | JValue.obj _ => true
  | _ => false

/-- The method `normalizeState` (src/store.js lines 173-183): a falsy or
non-object document becomes the empty registry, a falsy or non-object
`hooks` member is replaced by an empty object, anything else is kept. -/
def normalizeStateJ (v : JValue) : JValue :=
  if jsFalsy v || !jsTypeofObject v then JValue.obj [("hooks", JValue.obj [])]
  else
    match v with
    | JValue.obj fields =>
      match assocFind fields "hooks" with
      | some h =>
        if jsFalsy h || !jsTypeofObject h then
          JValue.obj (assocSet fields "hooks" (JValue.obj []))
        else JValue.obj fields
      | none => JValue.obj (assocSet fields "hooks" (JValue.obj []))
    | _ => JValue.obj [("hooks", JValue.obj [])]

/-- What `fs.readFile` followed by `JSON.parse` can produce: empty text
(the `raw || default` fallback applies), text `JSON.parse` rejects, or
text parsing to a JSON value. -/
inductive RawDoc where
  | empty
  | malformed
  | parsed (v : JValue)

/-- Outcome of the initial read in `init`: file absent (ENOENT), a read
error of another kind, or readable content. -/
inductive ReadOutcome where
  | enoent
  | readFailed
  | content (doc : RawDoc)

/-- Result of `init`: the normalized in-memory state together with
whether the state was immediately written back out (the ENOENT branch
creates the directory and persists), or a propagated failure. -/
inductive InitResult where
  | ok (state : JValue) (wroteOut : Bool)
  | parseFailed
  | readError

/-- Whether `init` succeeded. -/
def InitResult.isOk : InitResult → Bool
  | InitResult.ok _ _ => true
  | _ => false

/-- The initial `this.state` value `{hooks: {}}` (src/store.js line 17),
which is also what parsing the fallback text `'{"hooks":{}}'` yields. -/
def emptyRegistry : JValue := JValue.obj [("hooks", JValue.obj [])]

/-- The method `init` (src/store.js lines 22-35) as a function of the
read outcome: ENOENT creates the directories, normalizes the initial
state and persists it; other read errors are rethrown; empty text parses
the fallback document; text `JSON.parse` rejects makes `JSON.parse`
throw, and since that error carries no `code` property the catch block
rethrows it (line 32); parsed content is normalized. -/
def initModel : ReadOutcome → InitResult
  | ReadOutcome.enoent => InitResult.ok (normalizeStateJ emptyRegistry) true
  | ReadOutcome.readFailed => InitResult.readError
  | ReadOutcome.content RawDoc.empty => InitResult.ok (normalizeStateJ emptyRegistry) false
  | ReadOutcome.content RawDoc.malformed => InitResult.parseFailed
  | ReadOutcome.content (RawDoc.parsed v) => InitResult.ok (normalizeStateJ v) false

/-- Counterexample to C7 as stated: a readable backing document whose
content is not valid JSON does not get normalized — `init` fails,
propagating the parse error. -/
theorem c7_init_normalizes_counterexample :
    initModel (ReadOutcome.content RawDoc.malformed) = InitResult.parseFailed ∧
    (initModel (ReadOutcome.content RawDoc.malformed)).isOk = false :=
  ⟨rfl, rfl⟩

/-- Amended C7: when the backing file is absent, `init` installs the
empty registry and writes it out; when the content is readable and parses
as JSON, `init` succeeds with the normalized document, whose `hooks`
member is always a JSON object (a missing or falsy or non-object one is
replaced by an empty object, and an already well-formed document is kept
verbatim); but content rejected by `JSON.parse` makes `init` fail. -/
theorem c7_init_normalization :
    initModel ReadOutcome.enoent = InitResult.ok emptyRegistry true ∧
    initModel (ReadOutcome.content RawDoc.empty) = InitResult.ok emptyRegistry false ∧
    (∀ v, initModel (ReadOutcome.content (RawDoc.parsed v)) =
      InitResult.ok (normalizeStateJ v) false) ∧
    (∀ v, ∃ fields hs, normalizeStateJ v = JValue.obj fields ∧
      assocFind fields "hooks" = some (JValue.obj hs)) ∧
    (∀ fields hs, assocFind fields "hooks" = some (JValue.obj hs) →
      normalizeStateJ (JValue.obj fields) = JValue.obj fields) := by
  refine ⟨rfl, rfl, fun v => rfl, ?_, ?_⟩
  · intro v
    cases v with
    | null => exact ⟨_, [], rfl, rfl⟩
    | bool b =>
      cases b
      · exact ⟨_, [], rfl, rfl⟩
      · exact ⟨_, [], rfl, rfl⟩
    | num n =>
      refine ⟨[("hooks", JValue.obj [])], [], ?_, rfl⟩
      unfold normalizeStateJ
      split
      · rfl
      · rfl
    | str s =>
      refine ⟨[("hooks", JValue.obj [])], [], ?_, rfl⟩
      unfold normalizeStateJ
      split
      · rfl
      · rfl
    | obj fields =>
      cases hfield : assocFind fields "hooks" with
      | none =>
        refine ⟨_, [], ?_, assocFind_assocSet_self fields "hooks" (JValue.obj [])⟩
        simp [normalizeStateJ, jsFalsy, jsTypeofObject, hfield]
      | some h =>
        cases h with
        | obj hs =>
          refine ⟨fields, hs, ?_, hfield⟩
          simp [normalizeStateJ, jsFalsy, jsTypeofObject, hfield]
        | null =>
          refine ⟨_, [], ?_, assocFind_assocSet_self fields "hooks" (JValue.obj [])⟩
          simp [normalizeStateJ, jsFalsy, jsTypeofObject, hfield]
        | bool b =>
          refine ⟨_, [], ?_, assocFind_assocSet_self fields "hooks" (JValue.obj [])⟩
          cases b <;> simp [normalizeStateJ, jsFalsy, jsTypeofObject, hfield]
        | num n =>
          refine ⟨_, [], ?_, assocFind_assocSet_self fields "hooks" (JValue.obj [])⟩
          by_cases h0 : n = 0 <;>
            simp [normalizeStateJ, jsFalsy, jsTypeofObject, hfield, h0]
        | str s =>
          refine ⟨_, [], ?_, assocFind_assocSet_self fields "hooks" (JValue.obj [])⟩
          by_cases h0 : s = "" <;>
            simp [normalizeStateJ, jsFalsy, jsTypeofObject, hfield, h0]
  · intro fields hs hfield
    unfold normalizeStateJ
    simp only [jsFalsy, jsTypeofObject, Bool.false_or, Bool.not_true, hfield]
    rfl

/-- Witness for the amended C7: a well-formed one-field document is kept
verbatim, and a document without a `hooks` member gets one. -/
theorem c7_init_normalization_witness :
    normalizeStateJ (JValue.obj [("hooks", JValue.obj [])]) =
      JValue.obj [("hooks", JValue.obj [])] ∧
    (∃ fields hs, normalizeStateJ (JValue.obj [("stray", JValue.num 1)]) = JValue.obj fields ∧
      assocFind fields "hooks" = some (JValue.obj hs)) :=
  ⟨c7_init_normalization.2.2.2.2 [("hooks", JValue.obj [])] [] rfl,
   c7_init_normalization.2.2.2.1 (JValue.obj [("stray", JValue.num 1)])⟩

/-!
Reference model for the aliasing behaviour of the file store.  JavaScript
objects are heap references: `this.state.hooks[slug] = hook; return hook`
hands the caller the very object the registry keeps, while
`JSON.parse(JSON.stringify(hook))` builds a fresh object.  To make that
observable we re-model the store with an explicit object heap: addresses
are natural numbers, the registry maps slugs to addresses, and a caller
who mutates an object it was handed performs `writeRef` on that address.
-/

/-- File store state with an explicit object heap: `slugAddr` is
`this.state.hooks` (slug to object reference), `heap` gives each live
object's current record value, `next` is the next fresh address. -/
structure HeapStore where
  logLimit : Nat
  slugAddr : List (String × Nat)
  heap : List (Nat × Hook)
  next : Nat
deriving DecidableEq, Repr

/-- The method `getHook` in the reference model (src/store.js lines
72-79): the JSON round trip allocates a fresh object carrying the same
record value and returns its address — never the stored address. -/
def getHookR (st : HeapStore) (slug : String) : Option Nat × HeapStore :=
  match assocFind st.slugAddr slug with
  | none => (none, st)
  | some a =>
    match assocFind st.heap a with
    | none => (none, st)
    | some hook =>
      (some st.next, { st with heap := assocSet st.heap st.next hook, next := st.next + 1 })

/-- The method `createHook` in the reference model (src/store.js lines
81-101): the new record object is stored in the registry and that same
object is returned (`return this.schedulePersist().then(() => hook)`). -/
def createHookR (st : HeapStore) (slug description : String)
    (metadata : List (String × String)) (newId : String) (now : Nat) :
    Except StoreErr Nat × HeapStore :=
  match assocFind st.slugAddr slug with
  | some _ => (Except.error (conflictErr slug), st)
  | none =>
    (Except.ok st.next,
      { st with
        heap := assocSet st.heap st.next (freshHook slug description metadata newId now)
        slugAddr := assocSet st.slugAddr slug st.next
        next := st.next + 1 })

/-- The method `clearLogs` in the reference model (src/store.js lines
131-144): the registered object is mutated in place and the same stored
object is returned (`return hook`). -/
def clearLogsR (st : HeapStore) (slug : String) : Except StoreErr Nat × HeapStore :=
  match assocFind st.slugAddr slug with
  | none => (Except.error (notFoundErr slug), st)
  | some a =>
    match assocFind st.heap a with
    | none => (Except.error (notFoundErr slug), st)
    | some hook => (Except.ok a, { st with heap := assocSet st.heap a (clearedHook hook) })

/-- An external caller mutating, through a reference it holds, the object
at address `a` (e.g. assigning to a field of a record the store handed
back). -/
def writeRef (st : HeapStore) (a : Nat) (hook : Hook) : HeapStore :=
  { st with heap := assocSet st.heap a hook }

/-- The record value a later read of `slug` observes: the current heap
content of the address the registry stores. -/
def readHookValue (st : HeapStore) (slug : String) : Option Hook :=
  match assocFind st.slugAddr slug with
  | none => none
  | some a => assocFind st.heap a

/-- Heap well-formedness: every address held by the registry was
allocated before `next`. -/
def HeapWF (st : HeapStore) : Prop :=
  ∀ slug a, assocFind st.slugAddr slug = some a → a < st.next

/-- The empty reference-model store. -/
def heapEmpty : HeapStore := { logLimit := 50, slugAddr := [], heap := [], next := 0 }

/-- The fresh hook of the C8 counterexample after the caller assigns
`hits = 99` through the reference `createHook` returned. -/
def c8Mutated : Hook := { freshHook "a" "" [] "id0" 0 with hits := 99 }

/-- Counterexample to C8 as stated: `createHook` returns the very object
the registry stores (address 0 here), so a caller mutating that returned
value changes what a later read observes — from 0 hits to 99 hits —
falsifying "no mutation of a returned value can change what a later read
observes" for `createHook`. -/
theorem c8_returned_copies_counterexample :
    (createHookR heapEmpty "a" "" [] "id0" 0).1 = Except.ok 0 ∧
    readHookValue (createHookR heapEmpty "a" "" [] "id0" 0).2 "a" =
      some (freshHook "a" "" [] "id0" 0) ∧
    (freshHook "a" "" [] "id0" 0).hits = 0 ∧
    readHookValue (writeRef (createHookR heapEmpty "a" "" [] "id0" 0).2 0 c8Mutated) "a" =
      some c8Mutated ∧
    c8Mutated.hits = 99 := by
  refine ⟨rfl, ?_, rfl, ?_, rfl⟩ <;> decide

/-- Amended C8: `getHook` does return a disconnected copy — mutating the
object it hands back never changes what a later read observes, and the
copy carries the stored record's value — but `createHook` and `clearLogs`
return the live internal record: the address they yield is exactly the
address the registry keeps for the slug. -/
theorem c8_getHook_copies_create_clear_alias :
    (∀ (st : HeapStore) (slug : String) (a' : Nat) (st' : HeapStore),
      HeapWF st → getHookR st slug = (some a', st') →
      (∀ hook', readHookValue (writeRef st' a' hook') slug = readHookValue st' slug) ∧
      assocFind st'.heap a' = readHookValue st slug) ∧
    (∀ (st : HeapStore) (slug description newId : String)
      (metadata : List (String × String)) (now : Nat) (a : Nat) (st' : HeapStore),
      createHookR st slug description metadata newId now = (Except.ok a, st') →
      assocFind st'.slugAddr slug = some a) ∧
    (∀ (st : HeapStore) (slug : String) (a : Nat) (st' : HeapStore),
      clearLogsR st slug = (Except.ok a, st') →
      assocFind st'.slugAddr slug = some a) := by
  refine ⟨?_, ?_, ?_⟩
  · intro st slug a' st' hwf heq
    cases hsa : assocFind st.slugAddr slug with
    | none => simp [getHookR, hsa] at heq
    | some a =>
      cases hha : assocFind st.heap a with
      | none => simp [getHookR, hsa, hha] at heq
      | some hook =>
        simp only [getHookR, hsa, hha, Prod.mk.injEq, Option.some.injEq] at heq
        obtain ⟨ha', hst'⟩ := heq
        have hane : a ≠ a' := by
          have := hwf slug a hsa
          omega
        constructor
        · intro hook'
          subst hst'
          simp only [writeRef, readHookValue, hsa]
          rw [assocFind_assocSet_ne _ _ _ _ (by subst ha'; exact fun h => hane h.symm),
            assocFind_assocSet_ne _ _ _ _ (by subst ha'; exact fun h => hane h.symm)]
        · subst hst'
          simp only [readHookValue, hsa]
          rw [← ha', assocFind_assocSet_self]
          exact hha.symm
  · intro st slug description newId metadata now a st' heq
    cases hsa : assocFind st.slugAddr slug with
    | some b => simp [createHookR, hsa] at heq
    | none =>
      simp only [createHookR, hsa, Prod.mk.injEq, Except.ok.injEq] at heq
      obtain ⟨ha, hst'⟩ := heq
      subst hst'
      rw [assocFind_assocSet_self, ha]
  · intro st slug a st' heq
    cases hsa : assocFind st.slugAddr slug with
    | none => simp [clearLogsR, hsa] at heq
    | some b =>
      cases hhb : assocFind st.heap b with
      | none => simp [clearLogsR, hsa, hhb] at heq
      | some hook =>
        simp only [clearLogsR, hsa, hhb, Prod.mk.injEq, Except.ok.injEq] at heq
        obtain ⟨hb, hst'⟩ := heq
        subst hst'
        rw [hsa, hb]

/-- Concrete one-hook reference-model store used to instantiate C8. -/
def c8St1 : HeapStore :=
  { logLimit := 50, slugAddr := [("a", 0)]
    heap := [(0, freshHook "a" "" [] "idA" 0)], next := 1 }

/-- Witness for the amended C8: on a one-hook store, mutating the copy
`getHook` returned does not change later reads, the copy holds the stored
value, and `createHook` and `clearLogs` return exactly the registered
address. -/
theorem c8_getHook_copies_create_clear_alias_witness :
    readHookValue (writeRef (getHookR c8St1 "a").2 1 c8Mutated) "a" =
      readHookValue (getHookR c8St1 "a").2 "a" ∧
    assocFind (getHookR c8St1 "a").2.heap 1 = readHookValue c8St1 "a" ∧
    assocFind (createHookR heapEmpty "b" "" [] "idB" 3).2.slugAddr "b" = some 0 ∧
    assocFind (clearLogsR c8St1 "a").2.slugAddr "a" = some 0 := by
  have hwf : HeapWF c8St1 := by
    intro s a h
    simp only [c8St1, assocFind] at h
    split at h
    · cases h
      decide
    · exact Option.noConfusion h
  have hget : getHookR c8St1 "a" = (some 1, (getHookR c8St1 "a").2) := rfl
  obtain ⟨hmut, hval⟩ :=
    c8_getHook_copies_create_clear_alias.1 c8St1 "a" 1 (getHookR c8St1 "a").2 hwf hget
  have hcreate : createHookR heapEmpty "b" "" [] "idB" 3 =
      (Except.ok 0, (createHookR heapEmpty "b" "" [] "idB" 3).2) := rfl
  have hclear : clearLogsR c8St1 "a" = (Except.ok 0, (clearLogsR c8St1 "a").2) := rfl
  exact ⟨hmut c8Mutated, hval,
    c8_getHook_copies_create_clear_alias.2.1 heapEmpty "b" "" "idB" [] 3 0 _ hcreate,
    c8_getHook_copies_create_clear_alias.2.2 c8St1 "a" 0 _ hclear⟩

/-!
State machine of the coalesced flush discipline (src/store.js lines
146-171).  The in-memory registry is abstracted as a version counter
`mem`, bumped by every mutation; `disk` is the version of the last
completed write; `inFlight` holds the snapshot version of the running
`persist()` call, if any (`this.writePromise` is non-null exactly when a
flush is running); `pending` is `this.pendingFlush`.  Flush completion is
modelled as a successful write — write failures are caught and only
logged (lines 159-161), which the spec covers separately under failure
semantics.
-/

/-- Version-level state of the schedule-persist machinery. -/
structure FlushState where
  mem : Nat
  disk : Nat
  inFlight : List Nat
  pending : Bool
deriving DecidableEq, Repr

/-- One call of `schedulePersist` (src/store.js lines 152-171): if a
write is already running, just set the pending flag (lines 153-156);
otherwise start `persist()`, which snapshots the current state
(lines 158-170). -/
def schedulePersistStep (s : FlushState) : FlushState :=
  if s.inFlight.isEmpty then { s with inFlight := [s.mem] }
  else { s with pending := true }

/-- A mutation: bump the in-memory version, then call `schedulePersist`
(as done by `createHook`, `deleteHook`, `recordHit` and `clearLogs`). -/
def mutateStep (s : FlushState) : FlushState :=
  schedulePersistStep { s with mem := s.mem + 1 }

/-- Completion of the running flush (the `.finally` handler, src/store.js
lines 162-168): the snapshot reaches disk, `writePromise` is cleared, and
if the pending flag is set it is cleared and `schedulePersist` runs once
more. -/
def completeStep (s : FlushState) : FlushState :=
  match s.inFlight with
  | [] => s
  | v :: rest =>
    let s1 := { s with disk := v, inFlight := rest }
    if s1.pending then schedulePersistStep { s1 with pending := false } else s1

/-- Initial state: nothing written, nothing running, no pending flag
(src/store.js lines 17-19). -/
def flushInit : FlushState := { mem := 0, disk := 0, inFlight := [], pending := false }

/-- States the schedule-persist machine can actually reach by mutations
and flush completions. -/
inductive FlushReachable : FlushState → Prop where
  | init : FlushReachable flushInit
  | mutate (s : FlushState) : FlushReachable s → FlushReachable (mutateStep s)
  | complete (s : FlushState) : FlushReachable s → FlushReachable (completeStep s)

/-- Inductive invariant of the machine: at most one flush in flight, the
pending flag only set while one is running, quiescence means the disk is
current, and an unaccompanied in-flight snapshot is the current memory
version. -/
def FlushInv (s : FlushState) : Prop :=
  s.inFlight.length ≤ 1 ∧
  (s.pending = true → s.inFlight ≠ []) ∧
  (s.inFlight = [] → s.disk = s.mem) ∧
  (∀ v, s.inFlight = [v] → s.pending = false → v = s.mem)

theorem flushInv_reachable : ∀ s, FlushReachable s → FlushInv s := by
  intro s h
  induction h with
  | init =>
    refine ⟨by simp [flushInit], by simp [flushInit], by simp [flushInit], ?_⟩
    intro v hv
    simp [flushInit] at hv
  | mutate s hs ih =>
    obtain ⟨ih1, ih2, ih3, ih4⟩ := ih
    cases hif : s.inFlight with
    | nil =>
      have hp : s.pending = false := by
        cases hpc : s.pending
        · rfl
        · exact absurd hif (ih2 hpc)
      have hstep : mutateStep s = { s with mem := s.mem + 1, inFlight := [s.mem + 1] } := by
        simp [mutateStep, schedulePersistStep, hif]
      rw [hstep]
      refine ⟨by simp, ?_, ?_, ?_⟩
      · intro hpend
        simp [hp] at hpend
      · intro hcontr
        simp at hcontr
      · intro w hw _
        simp only [List.cons.injEq] at hw
        show w = s.mem + 1
        omega
    | cons v rest =>
      have hstep : mutateStep s = { s with mem := s.mem + 1, pending := true } := by
        simp [mutateStep, schedulePersistStep, hif]
      rw [hstep]
      refine ⟨ih1, ?_, ?_, ?_⟩
      · intro _
        simp [hif]
      · intro hcontr
        simp only at hcontr
        rw [hif] at hcontr
        simp at hcontr
      · intro w hw hpend
        simp at hpend
  | complete s hs ih =>
    obtain ⟨ih1, ih2, ih3, ih4⟩ := ih
    cases hif : s.inFlight with
    | nil =>
      have hstep : completeStep s = s := by simp [completeStep, hif]
      rw [hstep]
      exact ⟨ih1, ih2, ih3, ih4⟩
    | cons v rest =>
      have hrest : rest = [] := by
        rw [hif] at ih1
        simp only [List.length_cons] at ih1
        have hz : rest.length = 0 := by omega
        exact List.length_eq_zero.mp hz
      subst hrest
      cases hp : s.pending with
      | false =>
        have hv : v = s.mem := ih4 v hif hp
        have hstep : completeStep s = { s with disk := v, inFlight := [] } := by
          simp [completeStep, hif, hp]
        rw [hstep]
        refine ⟨by simp, ?_, ?_, ?_⟩
        · intro hpend
          simp only at hpend
          simp [hp] at hpend
        · intro _
          exact hv
        · intro w hw _
          simp at hw
      | true =>
        have hstep : completeStep s =
            { s with disk := v, inFlight := [s.mem], pending := false } := by
          simp [completeStep, hif, hp, schedulePersistStep]
        rw [hstep]
        refine ⟨by simp, ?_, ?_, ?_⟩
        · intro hpend
          simp at hpend
        · intro hcontr
          simp at hcontr
        · intro w hw _
          simp only [List.cons.injEq] at hw
          show w = s.mem
          omega

/-- C9: in every reachable state of the schedule-persist machine at most
one flush is in flight; a mutation arriving while one is running changes
no in-flight work and only sets the pending flag; when the running flush
completes with the pending flag set, exactly one more flush starts (and
the flag clears); a quiescent state (no flight, which forces no pending
flag) has the disk current; and from any reachable state, completing the
in-flight work (at most two completions, with no further mutations)
leaves nothing in flight and the on-disk version equal to the in-memory
version. -/
theorem c9_flush_serialized_coalesced :
    ∀ s, FlushReachable s →
      s.inFlight.length ≤ 1 ∧
      (s.inFlight ≠ [] → (mutateStep s).inFlight = s.inFlight ∧
        (mutateStep s).pending = true ∧ (mutateStep s).disk = s.disk) ∧
      (∀ v, s.inFlight = [v] → s.pending = true →
        (completeStep s).inFlight = [s.mem] ∧ (completeStep s).pending = false ∧
        (completeStep s).disk = v) ∧
      (s.inFlight = [] → s.pending = false ∧ s.disk = s.mem) ∧
      ((completeStep (completeStep s)).inFlight = [] ∧
        (completeStep (completeStep s)).disk = (completeStep (completeStep s)).mem) := by
  intro s hreach
  obtain ⟨ih1, ih2, ih3, ih4⟩ := flushInv_reachable s hreach
  refine ⟨ih1, ?_, ?_, ?_, ?_⟩
  · intro hne
    cases hif : s.inFlight with
    | nil => exact absurd hif hne
    | cons v rest =>
      have hstep : mutateStep s = { s with mem := s.mem + 1, pending := true } := by
        simp [mutateStep, schedulePersistStep, hif]
      rw [hstep]
      exact ⟨hif.symm ▸ rfl, rfl, rfl⟩
  · intro v hv hp
    have hstep : completeStep s =
        { s with disk := v, inFlight := [s.mem], pending := false } := by
      simp [completeStep, hv, hp, schedulePersistStep]
    rw [hstep]
    exact ⟨rfl, rfl, rfl⟩
  · intro hnil
    refine ⟨?_, ih3 hnil⟩
    cases hpc : s.pending
    · rfl
    · exact absurd hnil (ih2 hpc)
  · cases hif : s.inFlight with
    | nil =>
      have hstep : completeStep s = s := by simp [completeStep, hif]
      rw [hstep, hstep]
      exact ⟨hif, ih3 hif⟩
    | cons v rest =>
      have hrest : rest = [] := by
        rw [hif] at ih1
        simp only [List.length_cons] at ih1
        have hz : rest.length = 0 := by omega
        exact List.length_eq_zero.mp hz
      subst hrest
      cases hp : s.pending with
      | false =>
        have hv : v = s.mem := ih4 v hif hp
        have hstep : completeStep s = { s with disk := v, inFlight := [] } := by
          simp [completeStep, hif, hp]
        have hstep2 : completeStep (completeStep s) = completeStep s := by
          rw [hstep]
          simp [completeStep]
        rw [hstep2, hstep]
        exact ⟨rfl, hv⟩
      | true =>
        have hstep : completeStep s =
            { s with disk := v, inFlight := [s.mem], pending := false } := by
          simp [completeStep, hif, hp, schedulePersistStep]
        have hstep2 : completeStep (completeStep s) =
            { s with disk := s.mem, inFlight := [], pending := false } := by
          rw [hstep]
          simp [completeStep]
        rw [hstep2]
        exact ⟨rfl, rfl⟩

/-- Witness for C9 at the reachable state reached by one mutation and
one completion from the initial state. -/
theorem c9_flush_serialized_coalesced_witness :
    (completeStep (mutateStep flushInit)).inFlight.length ≤ 1 ∧
    (completeStep (completeStep (completeStep (mutateStep flushInit)))).inFlight = [] ∧
    (completeStep (completeStep (completeStep (mutateStep flushInit)))).disk =
      (completeStep (completeStep (completeStep (mutateStep flushInit)))).mem := by
  have h := c9_flush_serialized_coalesced (completeStep (mutateStep flushInit))
    (FlushReachable.complete _ (FlushReachable.mutate _ FlushReachable.init))
  exact ⟨h.1, h.2.2.2.2.1, h.2.2.2.2.2⟩

/-!
Model of `generateId` (src/store.js lines 6-10): `crypto.randomBytes`
yields `2 * length` random bytes, `toString('base64url')` encodes them
without padding, `slice(0, length)` keeps the first `length` characters,
and if the slice came up short the function retries with fresh bytes.
The randomness source is a parameter (`rng k` is the byte string drawn
on attempt `k`), and the unbounded retry recursion is modelled with
explicit fuel; proving that fuel 1 always suffices establishes that the
retry branch is never taken.
-/

/-- The base64url digit alphabet, in encoding order. -/
def b64Alphabet : List Char :=
  "ABCDEFGHIJKLMNOPQRSTUVWXYZabcdefghijklmnopqrstuvwxyz0123456789-_".toList

/-- Digit `i` of the base64url alphabet. -/
def b64Char (i : Nat) : Char := b64Alphabet.getD i 'A'

/-- Unpadded base64url of a byte string (what Node's
`buffer.toString('base64url')` produces): three bytes become four
digits, a two-byte remainder three digits, a one-byte remainder two. -/
def base64urlEncode : List (Fin 256) → List Char
  | [] => []
  | [a] => [b64Char (a.val / 4), b64Char (a.val % 4 * 16)]
  | [a, b] =>
    [b64Char (a.val / 4), b64Char (a.val % 4 * 16 + b.val / 16), b64Char (b.val % 16 * 4)]
  | a :: b :: c :: rest =>
    b64Char (a.val / 4) :: b64Char (a.val % 4 * 16 + b.val / 16) ::
      b64Char (b.val % 16 * 4 + c.val / 64) :: b64Char (c.val % 64) :: base64urlEncode rest

/-- Attempt loop of `generateId`: draw this attempt's bytes, encode, cut
to `length`; return the cut when it is long enough, otherwise retry
(src/store.js line 9), consuming one unit of fuel per attempt. -/
def generateIdAttempts (rng : Nat → List (Fin 256)) : Nat → Nat → Nat → Option (List Char)
  | 0, _, _ => none
  | fuel + 1, attempt, length =>
    let id := (base64urlEncode (rng attempt)).take length
    if length ≤ id.length then some id
    else generateIdAttempts rng fuel (attempt + 1) length

/-- The function `generateId` (src/store.js lines 6-10), starting at
attempt 0 with the given fuel bound on the number of attempts. -/
def generateId (rng : Nat → List (Fin 256)) (fuel : Nat) (length : Nat) : Option (List Char) :=
  generateIdAttempts rng fuel 0 length

theorem base64urlEncode_length_ge (bs : List (Fin 256)) :
    bs.length ≤ (base64urlEncode bs).length := by
  match bs with
  | [] => simp [base64urlEncode]
  | [a] => simp [base64urlEncode]
  | [a, b] => simp [base64urlEncode]
  | a :: b :: c :: rest =>
    have ih := base64urlEncode_length_ge rest
    simp only [base64urlEncode, List.length_cons]
    omega

theorem b64Char_mem (i : Nat) (h : i < 64) : b64Char i ∈ b64Alphabet := by
  have hlen : b64Alphabet.length = 64 := by decide
  unfold b64Char
  rw [List.getD_eq_getElem b64Alphabet 'A' (by omega)]
  exact List.getElem_mem _

theorem base64urlEncode_mem (bs : List (Fin 256)) (ch : Char)
    (h : ch ∈ base64urlEncode bs) : ch ∈ b64Alphabet := by
  match bs with
  | [] => simp [base64urlEncode] at h
  | [a] =>
    simp only [base64urlEncode, List.mem_cons, List.not_mem_nil, or_false] at h
    rcases h with h | h
    · exact h ▸ b64Char_mem _ (by omega)
    · exact h ▸ b64Char_mem _ (by have := a.isLt; omega)
  | [a, b] =>
    simp only [base64urlEncode, List.mem_cons, List.not_mem_nil, or_false] at h
    rcases h with h | h | h
    · exact h ▸ b64Char_mem _ (by omega)
    · exact h ▸ b64Char_mem _ (by have := a.isLt; have := b.isLt; omega)
    · exact h ▸ b64Char_mem _ (by omega)
  | a :: b :: c :: rest =>
    simp only [base64urlEncode, List.mem_cons] at h
    rcases h with h | h | h | h | h
    · exact h ▸ b64Char_mem _ (by omega)
    · exact h ▸ b64Char_mem _ (by have := a.isLt; have := b.isLt; omega)
    · exact h ▸ b64Char_mem _ (by have := b.isLt; have := c.isLt; omega)
    · exact h ▸ b64Char_mem _ (by omega)
    · exact base64urlEncode_mem rest ch h

/-- C10: for every length of at least 1 and any randomness giving the
`2 * length` bytes `randomBytes` draws, `generateId` succeeds on the very
first attempt — so it terminates under any fuel bound of at least one
attempt, the retry branch is never taken — and the id consists of exactly
`length` base64url-alphabet characters. -/
theorem c10_generateId_first_attempt :
    ∀ (rng : Nat → List (Fin 256)) (length : Nat), 1 ≤ length →
      (rng 0).length = 2 * length →
      ∃ id, (∀ fuel, 1 ≤ fuel → generateId rng fuel length = some id) ∧
        id.length = length ∧
        (∀ ch, ch ∈ id → ch ∈ b64Alphabet) := by
  intro rng length hlen hbytes
  have henc : length ≤ (base64urlEncode (rng 0)).length := by
    have := base64urlEncode_length_ge (rng 0)
    omega
  refine ⟨(base64urlEncode (rng 0)).take length, ?_, ?_, ?_⟩
  · intro fuel hfuel
    cases fuel with
    | zero => omega
    | succ f =>
      simp only [generateId, generateIdAttempts, List.length_take]
      rw [if_pos (by omega)]
  · rw [List.length_take]
    omega
  · intro ch hch
    exact base64urlEncode_mem (rng 0) ch (List.mem_of_mem_take hch)

/-- Fixed four-byte randomness used to instantiate C10 at length 2. -/
def c10Rng : Nat → List (Fin 256) :=
  fun _ => [⟨0, by decide⟩, ⟨1, by decide⟩, ⟨2, by decide⟩, ⟨3, by decide⟩]

/-- Witness for C10: with four random bytes and length 2, the first
attempt yields a two-character base64url id. -/
theorem c10_generateId_first_attempt_witness :
    ∃ id, (∀ fuel, 1 ≤ fuel → generateId c10Rng fuel 2 = some id) ∧
      id.length = 2 ∧
      (∀ ch, ch ∈ id → ch ∈ b64Alphabet) :=
  c10_generateId_first_attempt c10Rng 2 (by decide) (by decide)
